import Mathlib

/-!
Verification development for the FederNet resource-profile sampler and CPU
core allocator (`src/resources/performance.py`).

Conventions of the shallow embedding:
* Python floats are modelled as rationals (`ℚ`); float literals such as `0.2`
  become the exact rationals they denote in the source text.
* Python dicts (which preserve insertion order) are modelled as association
  lists `List (String × _)`; assignment to an existing key keeps its position
  (`alistUpsert`).
* Python's stable `list.sort(key=...)` is modelled by `List.mergeSort` with
  the boolean relation `le x y := key x ≤ key y`, which is the same stable
  sort.
* Functions that can raise return `Except PyError _`; each constructor of
  `PyError` names the Python exception class raised at the corresponding
  source line.  The spec's `InvalidState` corresponds to `RuntimeError`,
  its `NotFound` to `KeyError`/`ValueError`, its `InconsistentSchema` to
  `AssertionError`.
* NumPy's random draws are abstracted by a `NumpyModel`: a fixed but
  arbitrary deterministic family of draw functions keyed by the seed that
  the code passes to `np.random.RandomState`.  The global NumPy generator
  state is threaded explicitly where a claim is about (in)dependence on it.
-/

/-- Python exception classes that the embedded code can raise. -/
inductive PyError where
  | keyError
  | valueError
  | assertionError
  | typeError
  | indexError
  | runtimeError
deriving DecidableEq, Repr

/-- Python `int(q)` on a float: truncation toward zero. -/
def pyInt (q : ℚ) : ℤ := if q < 0 then ⌈q⌉ else ⌊q⌋

/-- Python `round(q)` on a float: round half to even. -/
def pyRound (q : ℚ) : ℤ :=
  let f := ⌊q⌋
  let r := q - (f : ℚ)
  if r < 1/2 then f
  else if 1/2 < r then f + 1
  else if f % 2 = 0 then f else f + 1

/-- Assignment `d[k] = v` on a Python dict modelled as an association list:
replaces the value at an existing key in place, otherwise appends. -/
def alistUpsert {α : Type} (l : List (String × α)) (k : String) (v : α) :
    List (String × α) :=
  match l with
  | [] => [(k, v)]
  | (k', v') :: rest =>
    if k' = k then (k', v) :: rest else (k', v') :: alistUpsert rest k v

/-- Tracks allocation state for a single CPU core (class `CoreAllocation`,
`performance.py` lines 12–26). -/
structure CoreAllocation where
  core_id : ℕ
  total_capacity : ℚ := 1
  used_capacity : ℚ := 0
  assigned_containers : List String := []
deriving DecidableEq, Repr

/-- Property `available_capacity` (line 20–22). -/
def CoreAllocation.available_capacity (c : CoreAllocation) : ℚ :=
  max 0 (c.total_capacity - c.used_capacity)

/-- The dict returned by `CPUAllocator.allocate` (lines 214–232). -/
structure AllocationInfo where
  container_name : String
  device_cores : ℕ
  device_score : ℚ
  host_cores_assigned : ℕ
  performance_quotient : ℚ  -- field `performance_ratio` of the source dict
  effective_capacity : ℚ
  allocated_capacity : ℚ
  cpu_limit_per_core : ℚ
  assigned_cores : List ℕ
  cpuset_cpus : String
  cpu_period : ℤ
  cpu_quota : ℤ
  nano_cpus : ℤ
  cpu_shares : ℤ
  mode : String
  is_oversubscribed : Bool
  overscaling_enabled : Bool
deriving DecidableEq, Repr

/-- State of class `CPUAllocator` (lines 29–58). -/
structure CPUAllocator where
  host_cores : ℕ
  host_score : ℚ
  spread_threshold : ℚ
  allow_overscaling : Bool
  cores : List CoreAllocation
  allocations : List (String × AllocationInfo)
  use_spread_mode : Bool
deriving DecidableEq, Repr

/-- Fresh per-core state, as built in `__init__` and `reset` (lines 54–56, 62). -/
def initCores (host_cores : ℕ) : List CoreAllocation :=
  (List.range host_cores).map (fun i => { core_id := i })

/-- `CPUAllocator.__init__` (lines 39–58). -/
def mkCPUAllocator (host_cores : ℕ) (host_score : ℚ) (spread_threshold : ℚ := 1/2)
    (allow_overscaling : Bool := false) : CPUAllocator :=
  { host_cores := host_cores
    host_score := host_score
    spread_threshold := spread_threshold
    allow_overscaling := allow_overscaling
    cores := initCores host_cores
    allocations := []
    use_spread_mode := true }

/-- `CPUAllocator.reset` (lines 60–64). -/
def CPUAllocator.reset (a : CPUAllocator) : CPUAllocator :=
  { a with cores := initCores a.host_cores, allocations := [], use_spread_mode := true }

/-- `CPUAllocator.set_mode` (lines 66–90). -/
def CPUAllocator.set_mode (a : CPUAllocator) (total_cores_needed : ℕ)
    (total_effective_capacity : ℚ) : CPUAllocator :=
  if total_cores_needed > a.host_cores then
    { a with use_spread_mode := false }
  else if total_effective_capacity < (a.host_cores : ℚ) * a.spread_threshold then
    { a with use_spread_mode := true }
  else
    { a with use_spread_mode := false }

/-- The `(cores_to_assign, cpu_limit_per_core, effective_capacity)` triple
computed at the top of `CPUAllocator.allocate` (lines 148–171). -/
def allocParams (allow_overscaling : Bool) (host_score : ℚ) (device_cores : ℕ)
    (device_score : ℚ) : ℕ × ℚ × ℚ :=
  let raw_perf := device_score / host_score
  if allow_overscaling then
    if raw_perf > 1 then
      ((⌈(device_cores : ℚ) * raw_perf⌉).toNat, 1, (device_cores : ℚ) * raw_perf)
    else
      (device_cores, raw_perf, (device_cores : ℚ) * raw_perf)
  else
    (device_cores, min 1 raw_perf, (device_cores : ℚ) * min 1 raw_perf)

/-- Sort relation of spread mode: Python's stable ascending sort by the key
`-available` (line 263), i.e. stable descending by available capacity. -/
def spreadLe (x y : ℕ × ℚ × ℚ) : Bool := decide (y.2.1 ≤ x.2.1)

/-- Lexicographic comparison of the `(ℕ, ℚ)` sort keys Python compares as
tuples. -/
def lexKeyLe (a b : ℕ × ℚ) : Bool := decide (a.1 < b.1 ∨ (a.1 = b.1 ∧ a.2 ≤ b.2))

/-- `shared_sort_key` (lines 270–277); the tuple is `(core_id, available, used)`. -/
def sharedSortKey (capacity_per_core : ℚ) (x : ℕ × ℚ × ℚ) : ℕ × ℚ :=
  if capacity_per_core ≤ x.2.1 then (0, -x.2.2) else (1, -x.2.1)

/-- Sort relation of shared mode: Python's stable ascending sort by
`shared_sort_key` (line 279). -/
def sharedLe (capacity_per_core : ℚ) (x y : ℕ × ℚ × ℚ) : Bool :=
  lexKeyLe (sharedSortKey capacity_per_core x) (sharedSortKey capacity_per_core y)

/-- `CPUAllocator._find_cores_for_device` (lines 237–290). -/
def CPUAllocator.find_cores_for_device (a : CPUAllocator) (num_cores_needed : ℕ)
    (capacity_per_core : ℚ) (prefer_empty : Bool) : List (ℕ × ℚ) × ℚ :=
  let core_list := a.cores.map
    (fun co => (co.core_id, co.available_capacity, co.used_capacity))
  let sorted := if prefer_empty then core_list.mergeSort spreadLe
                else core_list.mergeSort (sharedLe capacity_per_core)
  let picks := (sorted.take (min num_cores_needed core_list.length)).map
    (fun x => (x.1, capacity_per_core))
  let remaining_cores : ℕ := num_cores_needed - picks.length
  (picks, (remaining_cores : ℚ) * capacity_per_core)

/-- Reads `cores[i].used_capacity`; all call sites pass an in-range index. -/
def getUsed (cores : List CoreAllocation) (i : ℕ) : ℚ :=
  ((cores.get? i).map (·.used_capacity)).getD 0

/-- The mutation loop of `CPUAllocator.allocate` over the chosen
`(core_id, capacity)` pairs (lines 184–196): flags oversubscription, adds
capacity, appends the container name; returns
`(cores, assigned_core_ids, total_allocated, is_oversubscribed)`. -/
def applyCoreAllocs (cores : List CoreAllocation) (container_name : String) :
    List (ℕ × ℚ) → List CoreAllocation × List ℕ × ℚ × Bool
  | [] => (cores, [], 0, false)
  | (core_id, capacity) :: rest =>
    let over := decide (getUsed cores core_id + capacity > 1)
    let cores' := List.modify
      (fun co => { co with
        used_capacity := co.used_capacity + capacity
        assigned_containers := co.assigned_containers ++ [container_name] })
      core_id cores
    let r := applyCoreAllocs cores' container_name rest
    (r.1, core_id :: r.2.1, capacity + r.2.2.1, over || r.2.2.2)

/-- `CPUAllocator.allocate` (lines 118–235).  `prefer_spread = none` models
the Python default `None` (falls back to the allocator's global mode). -/
def CPUAllocator.allocate (a : CPUAllocator) (container_name : String)
    (device_cores : ℕ) (device_score : ℚ) (prefer_spread : Option Bool := none) :
    CPUAllocator × AllocationInfo :=
  let raw_perf := device_score / a.host_score
  let params := allocParams a.allow_overscaling a.host_score device_cores device_score
  let cores_to_assign := params.1
  let cpu_limit_per_core := params.2.1
  let effective_capacity := params.2.2
  let ps := prefer_spread.getD a.use_spread_mode
  let found := a.find_cores_for_device cores_to_assign cpu_limit_per_core ps
  let applied := applyCoreAllocs a.cores container_name found.1
  let cores' := applied.1
  let assigned_core_ids := applied.2.1
  let total_allocated := applied.2.2.1
  let is_oversubscribed := applied.2.2.2
  let cpu_period : ℤ := 100000
  let cpu_quota := pyInt ((cpu_period : ℚ) * effective_capacity)
  let nano_cpus := pyInt (effective_capacity * 1000000000)
  let cpu_shares := pyInt (effective_capacity * 1024)
  let cpuset_cpus := String.intercalate ","
    ((assigned_core_ids.dedup.mergeSort (fun x y => decide (x ≤ y))).map toString)
  let info : AllocationInfo := {
    container_name := container_name
    device_cores := device_cores
    device_score := device_score
    host_cores_assigned := assigned_core_ids.length
    performance_quotient := raw_perf
    effective_capacity := effective_capacity
    allocated_capacity := total_allocated
    cpu_limit_per_core := cpu_limit_per_core
    assigned_cores := assigned_core_ids
    cpuset_cpus := cpuset_cpus
    cpu_period := cpu_period
    cpu_quota := cpu_quota
    nano_cpus := nano_cpus
    cpu_shares := cpu_shares
    mode := if ps then "spread" else "shared"
    is_oversubscribed := is_oversubscribed
    overscaling_enabled := a.allow_overscaling }
  ({ a with
      cores := cores'
      allocations := alistUpsert a.allocations container_name info }, info)

/-- One entry of the `core_usage` list in the allocation summary (lines 298–306). -/
structure CoreUsage where
  core_id : ℕ
  used_capacity : ℚ
  available_capacity : ℚ
  containers : List String
deriving DecidableEq, Repr

/-- The dict returned by `CPUAllocator.get_allocation_summary` (lines 292–308). -/
structure AllocationSummary where
  host_cores : ℕ
  host_score : ℚ
  mode : String
  core_usage : List CoreUsage
  allocations : List (String × AllocationInfo)
deriving DecidableEq, Repr

/-- `CPUAllocator.get_allocation_summary` (lines 292–308). -/
def CPUAllocator.get_allocation_summary (a : CPUAllocator) : AllocationSummary :=
  { host_cores := a.host_cores
    host_score := a.host_score
    mode := if a.use_spread_mode then "spread" else "shared"
    core_usage := a.cores.map (fun c =>
      { core_id := c.core_id
        used_capacity := c.used_capacity
        available_capacity := c.available_capacity
        containers := c.assigned_containers })
    allocations := a.allocations }

/-- A device-spec dict as stored by the resource manager: keys `cores`,
`ram_gib`, `freq_mhz` and optionally `single_core_score`
(`dev.get("single_core_score", host_score)` at line 348). -/
structure Device where
  cores : ℕ
  ram_gib : ℚ
  freq_mhz : ℚ
  single_core_score : Option ℚ
deriving DecidableEq, Repr

/-- The Docker host-config dict built by `generate_container_configs`
(lines 439–449); the six thread-limit environment variables (lines 430–437)
all carry the same value, recorded once as `envThreads`. -/
structure ContainerConfig where
  NanoCPUs : ℤ
  Cpus : ℕ
  EffectiveCpus : ℚ
  CpuPeriod : ℤ
  CpuQuota : ℤ
  CpuShares : ℤ
  CpusetCpus : String
  Memory : ℤ
  envThreads : ℕ
deriving DecidableEq, Repr

/-- `generate_container_configs` (lines 311–451), restricted to the path that
`ContainerResourceManager.plan_allocations` exercises: an allocator is
supplied and `device_parma` is a non-empty device dict.  The allocator-less
legacy branch and the no-device branch read host facts through `os`/`psutil`
(I/O) and are never reached from the manager; the warnings the source prints
are side effects carrying no state. -/
def generateContainerConfigs (client_count : ℕ) (device_parma : Device)
    (host_score : ℚ) (allocator : CPUAllocator) (container_idx : ℕ) :
    Except PyError (CPUAllocator × ContainerConfig) :=
  if client_count < 1 then .error .valueError
  else
    let device_score := device_parma.single_core_score.getD host_score
    let res := allocator.allocate ("container_" ++ toString container_idx)
      device_parma.cores device_score none
    let alloc := res.2
    let effective_cores := alloc.allocated_capacity
    let memory := pyInt (device_parma.ram_gib * 1024 ^ 3)
    let env_threads := (max 1 ⌈effective_cores⌉).toNat
    .ok (res.1,
      { NanoCPUs := alloc.nano_cpus
        Cpus := device_parma.cores
        EffectiveCpus := effective_cores
        CpuPeriod := alloc.cpu_period
        CpuQuota := alloc.cpu_quota
        CpuShares := alloc.cpu_shares
        CpusetCpus := alloc.cpuset_cpus
        Memory := memory
        envThreads := env_threads })

/-- State of class `ContainerResourceManager` (lines 725–783); `host_cores`
is the constructor argument (auto-detection via `os.cpu_count()` is host
I/O and is modelled by passing the detected value explicitly). -/
structure ContainerResourceManager where
  host_score : ℚ
  client_count : ℕ
  host_cores : ℕ
  spread_threshold : ℚ
  device_variation : ℚ
  allow_overscaling : Bool
  allocator : CPUAllocator
  containers : List (String × Device)
  configs : List (String × ContainerConfig)
  planned : Bool
deriving DecidableEq, Repr

/-- `ContainerResourceManager.__init__` (lines 748–783). -/
def mkContainerResourceManager (host_score : ℚ := 1150) (client_count : ℕ := 10)
    (host_cores : ℕ := 1) (spread_threshold : ℚ := 1/2)
    (device_variation : ℚ := 1/5) (allow_overscaling : Bool := false) :
    ContainerResourceManager :=
  { host_score := host_score
    client_count := client_count
    host_cores := host_cores
    spread_threshold := spread_threshold
    device_variation := device_variation
    allow_overscaling := allow_overscaling
    allocator := mkCPUAllocator host_cores host_score spread_threshold allow_overscaling
    containers := []
    configs := []
    planned := false }

/-- `ContainerResourceManager.add_container` (lines 785–829), covering the
`device_spec` and default branches; the `device_name` branch resolves a spec
through the device catalog (`perturb_device`) and then stores it the same
way, so registered states are arbitrary association lists of devices either
way. -/
def ContainerResourceManager.add_container (m : ContainerResourceManager)
    (name : String) (device_spec : Option Device := none)
    (default_cores : ℕ := 1) (default_ram_gib : ℚ := 2) :
    Except PyError ContainerResourceManager :=
  if m.planned then .error .runtimeError
  else
    let dev := device_spec.getD
      { cores := default_cores
        ram_gib := default_ram_gib
        freq_mhz := 2500
        single_core_score := some m.host_score }
    .ok { m with containers := alistUpsert m.containers name dev }

/-- The totals loop of `plan_allocations` (lines 841–861): total device cores
needed and total effective capacity, respecting the overscaling flag. -/
def planTotals (host_score : ℚ) (allow_overscaling : Bool) :
    List (String × Device) → ℕ × ℚ
  | [] => (0, 0)
  | (_, dev) :: rest =>
    let acc := planTotals host_score allow_overscaling rest
    let perf := (dev.single_core_score.getD host_score) / host_score
    if allow_overscaling = true ∧ perf > 1 then
      (acc.1 + (⌈(dev.cores : ℚ) * perf⌉).toNat, acc.2 + (dev.cores : ℚ) * perf)
    else
      (acc.1 + dev.cores, acc.2 + (dev.cores : ℚ) * min 1 perf)

/-- The allocation loop of `plan_allocations` (lines 866–884): allocates each
registered container in registration order, with `enumerate` supplying the
container index. -/
def planLoop (client_count : ℕ) (host_score : ℚ) :
    CPUAllocator → List (String × Device) → ℕ →
    List (String × ContainerConfig) →
    Except PyError (CPUAllocator × List (String × ContainerConfig))
  | al, [], _, cfgs => .ok (al, cfgs)
  | al, (name, dev) :: rest, idx, cfgs =>
    match generateContainerConfigs client_count dev host_score al idx with
    | .error e => .error e
    | .ok (al', cfg) =>
      planLoop client_count host_score al' rest (idx + 1) (alistUpsert cfgs name cfg)

/-- `ContainerResourceManager.plan_allocations` (lines 831–884).  Python
raises `ValueError` out of the loop when `client_count < 1`; the `.error`
case discards the partially mutated state, which no claim observes. -/
def ContainerResourceManager.plan_allocations (m : ContainerResourceManager) :
    Except PyError ContainerResourceManager :=
  let al0 := m.allocator.reset
  let totals := planTotals m.host_score m.allow_overscaling m.containers
  let al1 := al0.set_mode totals.1 totals.2
  match planLoop m.client_count m.host_score al1 m.containers 0 m.configs with
  | .error e => .error e
  | .ok res => .ok { m with allocator := res.1, configs := res.2, planned := true }

/-- `ContainerResourceManager.get_container_config` (lines 886–890); raises
`RuntimeError` (the spec's `InvalidState`) before planning, otherwise
returns `configs.get(name)`. -/
def ContainerResourceManager.get_container_config (m : ContainerResourceManager)
    (name : String) : Except PyError (Option ContainerConfig) :=
  if !m.planned then .error .runtimeError
  else .ok (m.configs.lookup name)

/-- `ContainerResourceManager.get_all_configs` (lines 892–896). -/
def ContainerResourceManager.get_all_configs (m : ContainerResourceManager) :
    Except PyError (List (String × ContainerConfig)) :=
  if !m.planned then .error .runtimeError
  else .ok m.configs

/-- `ContainerResourceManager.get_allocation_summary` (lines 898–900): the
source delegates unconditionally — there is no `_planned` check. -/
def ContainerResourceManager.get_allocation_summary (m : ContainerResourceManager) :
    Except PyError AllocationSummary :=
  .ok m.allocator.get_allocation_summary

/-- `ContainerResourceManager.reset` (lines 902–912). -/
def ContainerResourceManager.reset (m : ContainerResourceManager) :
    ContainerResourceManager :=
  { m with
    allocator := mkCPUAllocator m.host_cores m.host_score m.spread_threshold
      m.allow_overscaling
    containers := []
    configs := []
    planned := false }

/-- One parameter entry of the network catalog: an optional `"typical"` value
and an optional `"range": [min, max]` pair (presence of the dict key is
modelled by `Option`). -/
structure ParamField where
  typical : Option ℚ
  range : Option (ℚ × ℚ)
deriving DecidableEq, Repr

/-- The `parameter -> field` dict under one connection type. -/
abbrev ParamDict := List (String × ParamField)

/-- The `connection type -> parameters` dict under one profile. -/
abbrev NetProfile := List (String × ParamDict)

/-- The loaded network catalog: `profile -> connection type -> parameters`. -/
abbrev NetCatalog := List (String × NetProfile)

/-- `extract_param_stats` (lines 519–539): the means, stddevs and keys of the
fields carrying a `"typical"` value, in dict order; a field with a `"range"`
uses `(max - min)/4` when `max > min` and otherwise falls back to
`0.2 * abs(mean)`. -/
def extractParamStats : ParamDict → List ℚ × List ℚ × List String
  | [] => ([], [], [])
  | (k, v) :: rest =>
    let acc := extractParamStats rest
    match v.typical, v.range with
    | some mean, some r =>
      let stddev := if r.1 < r.2 then (r.2 - r.1) / 4 else 1/5 * |mean|
      (mean :: acc.1, stddev :: acc.2.1, k :: acc.2.2)
    | some mean, none =>
      (mean :: acc.1, 1/5 * |mean| :: acc.2.1, k :: acc.2.2)
    | none, _ => acc

/-- Depth-first hit of `key` in one leaf field dict `{"typical",.. "range",..}`
of the catalog (the `range` list holds no dict keys below it). -/
def deepGetField (path : List String) (f : ParamField) (key : String) :
    Option (List String) :=
  if (key = "typical" ∧ f.typical.isSome) ∨ (key = "range" ∧ f.range.isSome) then
    some (path ++ [key])
  else none

/-- Depth-first hit of `key` under one connection type's parameter dict. -/
def deepGetParams (path : List String) (pd : ParamDict) (key : String) :
    Option (List String) :=
  if (pd.lookup key).isSome then some (path ++ [key])
  else pd.reverse.findSome? (fun kv => deepGetField (path ++ [kv.1]) kv.2 key)

/-- Depth-first hit of `key` under one profile's connection-type dict. -/
def deepGetProfile (path : List String) (p : NetProfile) (key : String) :
    Option (List String) :=
  if (p.lookup key).isSome then some (path ++ [key])
  else p.reverse.findSome? (fun kv => deepGetParams (path ++ [kv.1]) kv.2 key)

/-- `deep_get` (lines 542–561) on the (typed) network catalog: a depth-first
search driven by popping a work stack, so siblings are visited in *reverse*
dict order; returns the path `path + [key]` of the hit, and `none` models
the `KeyError` raised when the key is absent everywhere. -/
def deepGet (data : NetCatalog) (key : String) : Option (List String) :=
  if (data.lookup key).isSome then some [key]
  else data.reverse.findSome? (fun kv => deepGetProfile [kv.1] kv.2 key)

/-- Deterministic model of the NumPy draws.  The source seeds a fresh
`np.random.RandomState(idx)` on every call (lines 603 and 649), so each
drawn vector is a pure function of the seed `idx` and the distribution
parameters; NumPy guarantees the result has the length of the mean
vector. -/
structure NumpyModel where
  normal : ℕ → List ℚ → List ℚ → List ℚ
  mvnormal : ℕ → List ℚ → List (List ℚ) → List ℚ

/-- The covariance matrix built at lines 606–608 (resp. 646–648):
`cov[i][j] = (1 if i = j else corr) * sigma[i] * sigma[j]`. -/
def covMatrix (corr : ℚ) (sigma : List ℚ) : List (List ℚ) :=
  sigma.enum.map (fun a => sigma.enum.map (fun b =>
    (if a.1 = b.1 then 1 else corr) * a.2 * b.2))

/-- `np.mean(rows, axis=0)` on equal-length rows (lines 596–597). -/
def elementwiseMean (rows : List (List ℚ)) : List ℚ :=
  match rows with
  | [] => []
  | r :: _ =>
    (List.range r.length).map
      (fun i => (rows.map (fun row => row.getD i 0)).sum / (rows.length : ℚ))

/-- The draw-and-clamp tail of `sample_profile` (lines 603–618): one
correlated or independent draw seeded by `idx`, clamped to `≥ 0` and keyed
by parameter name. -/
def drawAndClamp (M : NumpyModel) (idx : ℕ) (means stddevs : List ℚ)
    (corr : Option ℚ) (keys : List String) : List (String × ℚ) :=
  let sample := match corr with
    | some c => M.mvnormal idx means (covMatrix c stddevs)
    | none => M.normal idx means stddevs
  (keys.zip sample).map (fun kv => (kv.1, max 0 kv.2))

/-- Body of `sample_profile` once the profile name is resolved (lines
582–618).  An empty profile dict makes the `conn_type is None` path feed
`np.mean` an empty list and then enumerate `None`, a `TypeError`; a key-set
mismatch across connection types fires the `assert` at line 593. -/
def sampleProfileResolved (M : NumpyModel) (data : NetCatalog) (profile : String)
    (idx : ℕ) (conn_type : Option String) (corr : Option ℚ) :
    Except PyError (List (String × ℚ)) :=
  match data.lookup profile with
  | none => .error .keyError
  | some p_data =>
    match conn_type with
    | none =>
      match p_data with
      | [] => .error .typeError
      | (_, pd0) :: rest =>
        let keys := (extractParamStats pd0).2.2
        if rest.all (fun ct => decide ((extractParamStats ct.2).2.2 = keys)) then
          let means := elementwiseMean (p_data.map (fun ct => (extractParamStats ct.2).1))
          let stddevs :=
            elementwiseMean (p_data.map (fun ct => (extractParamStats ct.2).2.1))
          .ok (drawAndClamp M idx means stddevs corr keys)
        else .error .assertionError
    | some ct =>
      match p_data.lookup ct with
      | none => .error .valueError
      | some pd =>
        let st := extractParamStats pd
        .ok (drawAndClamp M idx st.1 st.2.1 corr st.2.2)

/-- `sample_profile` (lines 564–618); a profile name absent from the
top-level keys is resolved through `deep_get`, whose path's first two
components become the profile and connection type (lines 578–581). -/
def sampleProfile (M : NumpyModel) (data : NetCatalog) (profile : String)
    (idx : ℕ) (conn_type : Option String := none) (corr : Option ℚ := none) :
    Except PyError (List (String × ℚ)) :=
  if (data.lookup profile).isSome then
    sampleProfileResolved M data profile idx conn_type corr
  else
    match deepGet data profile with
    | none => .error .keyError
    | some (p :: c :: _) => sampleProfileResolved M data p idx (some c) corr
    | some _ => .error .indexError

/-- `perturb_device` (lines 621–661): perturbs the non-locked numeric fields
of a device dict with a correlated draw seeded by `idx`, rounding fields
whose archetype value is integral, clamping to `≥ 1`, and merging the
locked fields back verbatim. -/
def perturbDevice (M : NumpyModel) (data : List (String × List (String × ℚ)))
    (device_name : String) (idx : ℕ) (variation : ℚ := 1/5) (corr : ℚ := 1/2)
    (lock_keys : List String := []) : Except PyError (List (String × ℚ)) :=
  match data.lookup device_name with
  | none => .error .valueError
  | some device =>
    let keys := device.filter (fun kv => !(lock_keys.contains kv.1))
    let locked := device.filter (fun kv => lock_keys.contains kv.1)
    let means := keys.map (·.2)
    if keys.length = 0 then .ok locked
    else
      let sigma := means.map (fun m => variation * |m|)
      let sample := M.mvnormal idx means (covMatrix corr sigma)
      let perturbed := (keys.zip sample).map (fun kv =>
        let v := kv.2
        let v := if kv.1.2 = ((pyInt kv.1.2 : ℤ) : ℚ) then ((pyRound v : ℤ) : ℚ) else v
        (kv.1.1, max 1 v))
      .ok (perturbed ++ locked)

/-- Python list indexing `l[i]` with negative-index wrapping; `none` models
`IndexError`. -/
def pyIndex {α : Type} (l : List α) (i : ℤ) : Option α :=
  if 0 ≤ i then l.get? i.toNat
  else if 0 ≤ i + (l.length : ℤ) then l.get? (i + (l.length : ℤ)).toNat
  else none

/-- The list-resolution step of `network_profile` (lines 670–674):
`profile[idx-1]`, falling back to `profile[-1]` when that raises
`IndexError` (an empty list raises again, uncaught). -/
def networkResolveProfile (profiles : List String) (idx : ℕ) : Option String :=
  match pyIndex profiles ((idx : ℤ) - 1) with
  | some p => some p
  | none => pyIndex profiles (-1)

/-- Which branch `device_profile` takes for a list-valued `device_name`. -/
inductive DeviceNameResolution where
  | profile (name : String)
  | defaultConfig
  | uncaughtError
deriving DecidableEq, Repr

/-- The list-resolution step of `device_profile` (lines 703–709):
`device_name[idx-1]`; only when that raises `IndexError` does the code test
`idx == 0` and return a default no-device config, otherwise it falls back
to the last element. -/
def deviceResolveName (names : List String) (idx : ℕ) : DeviceNameResolution :=
  match pyIndex names ((idx : ℤ) - 1) with
  | some n => .profile n
  | none =>
    if idx = 0 then .defaultConfig
    else
      match pyIndex names (-1) with
      | some n => .profile n
      | none => .uncaughtError

/-- `network_profile` (lines 664–676) for a list-valued `profile`, with the
catalog passed explicitly (the source loads it from `network_specs.json`);
a string-valued `profile` passes through unchanged and is exactly
`sampleProfile`. -/
def networkProfile (M : NumpyModel) (data : NetCatalog) (profile : List String)
    (idx : ℕ) (conn_type : Option String := none) (corr : Option ℚ := none) :
    Except PyError (List (String × ℚ)) :=
  match networkResolveProfile profile idx with
  | none => .error .indexError
  | some p => sampleProfile M data p idx conn_type corr

/-- `sample_profile` threaded through the global NumPy generator state: the
source builds its generator locally from `idx` at line 603 and neither
reads nor writes the global one, so the state passes through untouched. -/
def sampleProfileRun (M : NumpyModel) (data : NetCatalog) (profile : String)
    (idx : ℕ) (conn_type : Option String) (corr : Option ℚ) (world : ℕ) :
    Except PyError (List (String × ℚ)) × ℕ :=
  (sampleProfile M data profile idx conn_type corr, world)

/-- `perturb_device` threaded through the global NumPy generator state
(local generator at line 649, global state untouched). -/
def perturbDeviceRun (M : NumpyModel) (data : List (String × List (String × ℚ)))
    (device_name : String) (idx : ℕ) (variation corr : ℚ)
    (lock_keys : List String) (world : ℕ) :
    Except PyError (List (String × ℚ)) × ℕ :=
  (perturbDevice M data device_name idx variation corr lock_keys, world)

/-- Total used capacity summed over the core table. -/
def sumUsed (cores : List CoreAllocation) : ℚ := (cores.map (·.used_capacity)).sum

/-- Number of completely idle cores (`used_capacity = 0`). -/
def emptyCount (cores : List CoreAllocation) : ℕ :=
  cores.countP (fun co => decide (co.used_capacity = 0))

/-- Structural well-formedness of the core table as the allocator maintains
it: core ids coincide with list positions, usage is within `[0, 1]`, and
every total capacity is the constant `1.0` the source never changes. -/
def WellFormedCores (cores : List CoreAllocation) : Prop :=
  cores.map (·.core_id) = List.range cores.length ∧
  ∀ co ∈ cores, 0 ≤ co.used_capacity ∧ co.used_capacity ≤ 1 ∧ co.total_capacity = 1

/-- Total `cores_to_assign` that the planning pass will request across the
given registered devices, each computed exactly as `allocate` computes it. -/
def needSum (allow : Bool) (hs : ℚ) : List (String × Device) → ℕ
  | [] => 0
  | (_, dev) :: rest =>
    (allocParams allow hs dev.cores (dev.single_core_score.getD hs)).1 +
      needSum allow hs rest

/-- Manager with 2 host cores at score 2 holding two registered devices:
"a" with one core at host speed, "b" with two cores at half speed.  Total
effective capacity is 1 + 1 = 2 ≤ 2 host cores, yet the pass runs in shared
mode (3 device cores > 2) and oversubscribes core 0. -/
def sharedOversubManager : ContainerResourceManager :=
  { mkContainerResourceManager 2 2 2 with
    containers := [("a", ⟨1, 1, 1000, some 2⟩), ("b", ⟨2, 1, 1000, some 1⟩)] }

/-- Manager with 1 host core at score 4 holding one quarter-speed device; the
planning pass selects spread mode (1 core needed ≤ 1, capacity 1/4 < 1/2). -/
def spreadScenarioManager : ContainerResourceManager :=
  { mkContainerResourceManager 4 1 1 with
    containers := [("a", ⟨1, 1, 1000, some 1⟩)] }

/-- A freshly constructed manager (nothing planned yet). -/
def freshManager : ContainerResourceManager := mkContainerResourceManager 1079 10 8

/-- A one-core allocator that has already allocated the name "a" once. -/
def reallocState : CPUAllocator := ((mkCPUAllocator 1 1).allocate "a" 1 1).1

/-- A parameter dict whose single field carries a degenerate range
`[5, 5]` together with `typical = 10`. -/
def degenerateRangeParams : ParamDict := [("x", ⟨some 10, some (5, 5)⟩)]

/-- Reformulation of the amended extraction contract, written from its
words: every field carrying a `typical` value contributes mean `typical`
and stddev `(max − min)/4` when its range satisfies `max > min`, and
`0.2·|typical|` when the range is absent or degenerate (`max ≤ min`);
fields without `typical` are omitted. -/
def extractParamStatsSpec (pd : ParamDict) : List ℚ × List ℚ × List String :=
  let entries := pd.filterMap (fun kv =>
    kv.2.typical.map (fun t =>
      (kv.1, t, match kv.2.range with
        | some r => if r.1 < r.2 then (r.2 - r.1) / 4 else 1/5 * |t|
        | none => 1/5 * |t|)))
  (entries.map (·.2.1), entries.map (·.2.2), entries.map (·.1))

/-- Concrete NumPy model (draws return the mean vector) used to instantiate
universally quantified theorems. -/
def meanNumpyModel : NumpyModel :=
  { normal := fun _ means _ => means
    mvnormal := fun _ means _ => means }

/-- Concrete NumPy model whose draws shift every mean by 10, so perturbation
visibly changes non-locked fields. -/
def shiftNumpyModel : NumpyModel :=
  { normal := fun _ means _ => means.map (· + 10)
    mvnormal := fun _ means _ => means.map (· + 10) }

theorem lookup_alistUpsert {α : Type} (l : List (String × α)) (k : String) (v : α) :
    (alistUpsert l k v).lookup k = some v := by
  induction l with
  | nil => simp [alistUpsert]
  | cons h t ih =>
    obtain ⟨k', v'⟩ := h
    by_cases hk : k' = k
    · simp [alistUpsert, hk]
    · have hbeq : (k == k') = false := beq_eq_false_iff_ne.mpr (fun h => hk h.symm)
      simp [alistUpsert, hk, List.lookup_cons, hbeq, ih]

theorem mem_alistUpsert {α : Type} {l : List (String × α)} {k : String} {v : α}
    {x : String × α} (hx : x ∈ alistUpsert l k v) : x ∈ l ∨ x = (k, v) := by
  induction l with
  | nil => simpa [alistUpsert] using hx
  | cons h t ih =>
    obtain ⟨k', v'⟩ := h
    by_cases hk : k' = k
    · rw [show alistUpsert ((k', v') :: t) k v = (k', v) :: t from by
        simp [alistUpsert, hk]] at hx
      rcases List.mem_cons.mp hx with h1 | h1
      · right; rw [h1, hk]
      · left; exact List.mem_cons_of_mem _ h1
    · rw [show alistUpsert ((k', v') :: t) k v = (k', v') :: alistUpsert t k v from by
        simp [alistUpsert, hk]] at hx
      rcases List.mem_cons.mp hx with h1 | h1
      · left; simp [h1]
      · rcases ih h1 with h2 | h2
        · left; exact List.mem_cons_of_mem _ h2
        · right; exact h2

theorem getUsed_modify_ne (f : CoreAllocation → CoreAllocation) {i j : ℕ}
    (l : List CoreAllocation) (h : i ≠ j) :
    getUsed (List.modify f i l) j = getUsed l j := by
  simp [getUsed, List.get?_eq_getElem?, List.getElem?_modify_ne f l h]

theorem getUsed_eq_get (l : List CoreAllocation) (i : ℕ) (hi : i < l.length) :
    getUsed l i = (l.get ⟨i, hi⟩).used_capacity := by
  simp [getUsed, List.get?_eq_getElem?, List.getElem?_eq_getElem hi]

theorem countP_modify_ge (p : CoreAllocation → Bool) (f : CoreAllocation → CoreAllocation)
    (i : ℕ) (l : List CoreAllocation) :
    l.countP p ≤ (List.modify f i l).countP p + 1 := by
  induction l generalizing i with
  | nil => simp
  | cons h t ih =>
    cases i with
    | zero =>
      simp only [List.modify_zero_cons, List.countP_cons]
      cases hph : p h <;> cases hpf : p (f h) <;> first
        | (simp; omega)
        | simp
    | succ n =>
      simp only [List.modify_succ_cons, List.countP_cons]
      have := ih n
      cases hph : p h <;> (simp; omega)

theorem sumUsed_modify_add (cap : ℚ) (nm : String) (i : ℕ) (l : List CoreAllocation)
    (hi : i < l.length) :
    sumUsed (List.modify (fun co => { co with
        used_capacity := co.used_capacity + cap
        assigned_containers := co.assigned_containers ++ [nm] }) i l) =
      sumUsed l + cap := by
  induction l generalizing i with
  | nil => simp at hi
  | cons h t ih =>
    cases i with
    | zero =>
      simp [List.modify_zero_cons, sumUsed]
      ring
    | succ n =>
      have hn : n < t.length := by simpa using hi
      simp only [List.modify_succ_cons, sumUsed, List.map_cons, List.sum_cons]
      have := ih n hn
      simp only [sumUsed] at this
      rw [this]
      ring

theorem map_core_id_modify (f : CoreAllocation → CoreAllocation)
    (hf : ∀ co, (f co).core_id = co.core_id) (i : ℕ) (l : List CoreAllocation) :
    (List.modify f i l).map (·.core_id) = l.map (·.core_id) := by
  induction l generalizing i with
  | nil => simp
  | cons h t ih =>
    cases i with
    | zero => simp [List.modify_zero_cons, hf]
    | succ n => simp [List.modify_succ_cons, ih]

theorem mem_modify {f : CoreAllocation → CoreAllocation} {l : List CoreAllocation}
    {i : ℕ} {co : CoreAllocation} (h : co ∈ List.modify f i l) :
    co ∈ l ∨ ∃ hi : i < l.length, co = f (l.get ⟨i, hi⟩) := by
  induction l generalizing i with
  | nil => simp at h
  | cons a t ih =>
    cases i with
    | zero =>
      simp only [List.modify_zero_cons, List.mem_cons] at h
      rcases h with h | h
      · right; exact ⟨by simp, by simpa using h⟩
      · left; exact List.mem_cons_of_mem _ h
    | succ n =>
      simp only [List.modify_succ_cons, List.mem_cons] at h
      rcases h with h | h
      · left; simp [h]
      · rcases ih h with h2 | ⟨hn, h2⟩
        · left; exact List.mem_cons_of_mem _ h2
        · right
          refine ⟨by simpa using Nat.succ_lt_succ hn, ?_⟩
          simpa using h2

theorem avail_eq_one_iff (co : CoreAllocation) (h0 : 0 ≤ co.used_capacity)
    (ht : co.total_capacity = 1) :
    co.available_capacity = 1 ↔ co.used_capacity = 0 := by
  unfold CoreAllocation.available_capacity
  rw [ht]
  constructor
  · intro h
    by_contra hne
    have hpos : 0 < co.used_capacity := lt_of_le_of_ne h0 (Ne.symm hne)
    have h1 : (1 : ℚ) - co.used_capacity < 1 := by linarith
    have : max 0 (1 - co.used_capacity) < 1 := max_lt (by norm_num) h1
    rw [h] at this
    exact absurd this (lt_irrefl 1)
  · intro h
    rw [h]
    norm_num

theorem avail_le_one (co : CoreAllocation) (h0 : 0 ≤ co.used_capacity)
    (ht : co.total_capacity = 1) : co.available_capacity ≤ 1 := by
  unfold CoreAllocation.available_capacity
  rw [ht]
  apply max_le (by norm_num)
  linarith

theorem take_sorted_all_full (m : ℕ) :
    ∀ (l : List (ℕ × ℚ × ℚ)),
    List.Pairwise (fun x y => spreadLe x y = true) l →
    (∀ x ∈ l, x.2.1 ≤ 1) →
    m ≤ l.countP (fun x => decide (x.2.1 = 1)) →
    ∀ x ∈ l.take m, x.2.1 = 1 := by
  induction m with
  | zero => intro l _ _ _ x hx; simp at hx
  | succ n ih =>
    intro l hsort hub hcnt x hx
    cases l with
    | nil => simp at hx
    | cons h t =>
      by_cases hh : h.2.1 = 1
      · rw [List.take_succ_cons] at hx
        rcases List.mem_cons.mp hx with hx1 | hx1
        · rw [hx1]; exact hh
        · refine ih t hsort.of_cons
            (fun y hy => hub y (List.mem_cons_of_mem _ hy)) ?_ x hx1
          have hc : (h :: t).countP (fun x => decide (x.2.1 = 1)) =
              t.countP (fun x => decide (x.2.1 = 1)) + 1 := by
            simp [List.countP_cons, hh]
          omega
      · exfalso
        have hlt : h.2.1 < 1 := lt_of_le_of_ne (hub h (by simp)) hh
        have hcnt0 : t.countP (fun x => decide (x.2.1 = 1)) = 0 := by
          rw [List.countP_eq_zero]
          intro y hy
          have hle : spreadLe h y = true := (List.pairwise_cons.mp hsort).1 y hy
          have hyle : y.2.1 ≤ h.2.1 := by simpa [spreadLe] using hle
          simp only [decide_eq_true_eq]
          intro heq
          rw [heq] at hyle
          linarith
        have hc : (h :: t).countP (fun x => decide (x.2.1 = 1)) = 0 := by
          simp [List.countP_cons, hh, hcnt0]
        omega

theorem find_cores_core (a : CPUAllocator) (n : ℕ) (c : ℚ) (ps : Bool) :
    ∃ sorted : List (ℕ × ℚ × ℚ),
      sorted.Perm (a.cores.map
        (fun co => (co.core_id, co.available_capacity, co.used_capacity))) ∧
      (a.find_cores_for_device n c ps).1 =
        (sorted.take (min n a.cores.length)).map (fun x => (x.1, c)) ∧
      (ps = true → List.Pairwise (fun x y => spreadLe x y = true) sorted) := by
  unfold CPUAllocator.find_cores_for_device
  cases ps with
  | false =>
    refine ⟨(a.cores.map
        (fun co => (co.core_id, co.available_capacity, co.used_capacity))).mergeSort
        (sharedLe c), List.mergeSort_perm _ _, ?_, by simp⟩
    simp
  | true =>
    refine ⟨(a.cores.map
        (fun co => (co.core_id, co.available_capacity, co.used_capacity))).mergeSort
        spreadLe, List.mergeSort_perm _ _, ?_, ?_⟩
    · simp
    · intro _
      apply List.sorted_mergeSort
      · intro x y z hxy hyz
        simp only [spreadLe, decide_eq_true_eq] at hxy hyz ⊢
        exact le_trans hyz hxy
      · intro x y
        simp only [spreadLe]
        rcases le_total y.2.1 x.2.1 with h | h <;> simp [h]

theorem core_list_map_fst (a : CPUAllocator) :
    (a.cores.map
      (fun co => (co.core_id, co.available_capacity, co.used_capacity))).map Prod.fst =
      a.cores.map (·.core_id) := by
  rw [List.map_map]
  rfl

theorem find_cores_picks_facts (a : CPUAllocator) (n : ℕ) (c : ℚ) (ps : Bool)
    (hids : a.cores.map (·.core_id) = List.range a.cores.length) :
    ((a.find_cores_for_device n c ps).1.map Prod.fst).Nodup ∧
    (∀ p ∈ (a.find_cores_for_device n c ps).1, p.1 < a.cores.length ∧ p.2 = c) ∧
    (a.find_cores_for_device n c ps).1.length = min n a.cores.length := by
  obtain ⟨sorted, hperm, hpicks, -⟩ := find_cores_core a n c ps
  have hfst : (sorted.map Prod.fst).Perm (List.range a.cores.length) := by
    have := hperm.map Prod.fst
    rwa [core_list_map_fst, hids] at this
  refine ⟨?_, ?_, ?_⟩
  · rw [hpicks, List.map_map]
    have heq : (Prod.fst ∘ fun x : ℕ × ℚ × ℚ => (x.1, c)) = Prod.fst := rfl
    rw [heq]
    have hnd : (sorted.map Prod.fst).Nodup :=
      hfst.symm.nodup (List.nodup_range _)
    exact hnd.sublist ((List.take_sublist _ _).map Prod.fst)
  · intro p hp
    rw [hpicks] at hp
    obtain ⟨x, hx, hxp⟩ := List.mem_map.mp hp
    have hxs : x ∈ sorted := (List.take_sublist _ _).mem hx
    have hx1 : x.1 ∈ List.range a.cores.length := by
      have : x.1 ∈ sorted.map Prod.fst := List.mem_map_of_mem Prod.fst hxs
      exact hfst.mem_iff.mp this
    constructor
    · rw [← hxp]
      exact List.mem_range.mp hx1
    · rw [← hxp]
  · rw [hpicks, List.length_map, List.length_take, hperm.length_eq, List.length_map]
    omega

theorem allocParams_limit_bounds (allow : Bool) (hs ds : ℚ) (dc : ℕ)
    (hhs : 0 < hs) (hds : 0 ≤ ds) :
    0 ≤ (allocParams allow hs dc ds).2.1 ∧ (allocParams allow hs dc ds).2.1 ≤ 1 := by
  have hraw : 0 ≤ ds / hs := div_nonneg hds hhs.le
  unfold allocParams
  cases allow with
  | false =>
    simp only [Bool.false_eq_true, if_false]
    exact ⟨le_min (by norm_num) hraw, min_le_left _ _⟩
  | true =>
    by_cases h : ds / hs > 1
    · simp only [if_pos h, if_true]
      norm_num
    · simp only [if_neg h, if_true]
      exact ⟨hraw, le_of_not_lt h⟩

theorem applyCoreAllocs_spread (nm : String) :
    ∀ (picks : List (ℕ × ℚ)) (cores : List CoreAllocation),
    (picks.map Prod.fst).Nodup →
    (∀ p ∈ picks, p.1 < cores.length) →
    (∀ p ∈ picks, getUsed cores p.1 = 0) →
    (∀ p ∈ picks, 0 ≤ p.2 ∧ p.2 ≤ 1) →
    (∀ co ∈ cores, 0 ≤ co.used_capacity ∧ co.used_capacity ≤ 1 ∧
      co.total_capacity = 1) →
    (applyCoreAllocs cores nm picks).2.2.2 = false ∧
    (applyCoreAllocs cores nm picks).1.map (·.core_id) = cores.map (·.core_id) ∧
    (∀ co ∈ (applyCoreAllocs cores nm picks).1,
      0 ≤ co.used_capacity ∧ co.used_capacity ≤ 1 ∧ co.total_capacity = 1) ∧
    emptyCount cores ≤ emptyCount (applyCoreAllocs cores nm picks).1 + picks.length := by
  intro picks
  induction picks with
  | nil =>
    intro cores _ _ _ _ hwf
    refine ⟨by simp [applyCoreAllocs], by simp [applyCoreAllocs],
      by simpa [applyCoreAllocs] using hwf, by simp [applyCoreAllocs]⟩
  | cons p rest ih =>
    intro cores hnd hrange hzero hcap hwf
    obtain ⟨id, cap⟩ := p
    have hid : id < cores.length := hrange _ (List.mem_cons_self _ _)
    have hz : getUsed cores id = 0 := hzero _ (List.mem_cons_self _ _)
    have hcap0 : 0 ≤ cap ∧ cap ≤ 1 := hcap _ (List.mem_cons_self _ _)
    have hndrest : (rest.map Prod.fst).Nodup := (List.nodup_cons.mp (by simpa using hnd)).2
    have hidnot : ∀ q ∈ rest, q.1 ≠ id := by
      intro q hq hqe
      have h1 : id ∉ rest.map Prod.fst := (List.nodup_cons.mp (by simpa using hnd)).1
      exact h1 (hqe ▸ List.mem_map_of_mem Prod.fst hq)
    simp only [applyCoreAllocs]
    set bump := fun co : CoreAllocation => { co with
        used_capacity := co.used_capacity + cap
        assigned_containers := co.assigned_containers ++ [nm] } with hbump
    have hlen' : (List.modify bump id cores).length = cores.length :=
      List.length_modify ..
    have hover : decide (getUsed cores id + cap > 1) = false := by
      rw [hz]
      simp only [decide_eq_false_iff_not, not_lt]
      linarith [hcap0.2]
    have hrange' : ∀ q ∈ rest, q.1 < (List.modify bump id cores).length := by
      intro q hq
      rw [hlen']
      exact hrange _ (List.mem_cons_of_mem _ hq)
    have hzero' : ∀ q ∈ rest, getUsed (List.modify bump id cores) q.1 = 0 := by
      intro q hq
      rw [getUsed_modify_ne bump cores (fun h => hidnot q hq h.symm)]
      exact hzero _ (List.mem_cons_of_mem _ hq)
    have hcap' : ∀ q ∈ rest, 0 ≤ q.2 ∧ q.2 ≤ 1 := by
      intro q hq
      exact hcap _ (List.mem_cons_of_mem _ hq)
    have hwf' : ∀ co ∈ List.modify bump id cores,
        0 ≤ co.used_capacity ∧ co.used_capacity ≤ 1 ∧ co.total_capacity = 1 := by
      intro co hco
      rcases mem_modify hco with h | ⟨hi, h⟩
      · exact hwf _ h
      · have hget := getUsed_eq_get cores id hi
        rw [hz] at hget
        have hu : (cores.get ⟨id, hi⟩).used_capacity = 0 := hget.symm
        have hwfg := hwf _ (cores.get_mem id hi)
        rw [h]
        simp only [hbump, hu]
        refine ⟨by linarith [hcap0.1], by linarith [hcap0.2], hwfg.2.2⟩
    obtain ⟨ihflag, ihmap, ihwf, ihcnt⟩ :=
      ih (List.modify bump id cores) hndrest hrange' hzero' hcap' hwf'
    have hcntstep : emptyCount cores ≤ emptyCount (List.modify bump id cores) + 1 :=
      countP_modify_ge _ bump id cores
    refine ⟨?_, ?_, ihwf, ?_⟩
    · simp [hover, ihflag]
    · rw [ihmap, map_core_id_modify bump (fun co => rfl) id cores]
    · simp only [List.length_cons]
      omega

theorem core_list_mem_facts (a : CPUAllocator)
    (hids : a.cores.map (·.core_id) = List.range a.cores.length)
    {x : ℕ × ℚ × ℚ}
    (hx : x ∈ a.cores.map
      (fun co => (co.core_id, co.available_capacity, co.used_capacity))) :
    getUsed a.cores x.1 = x.2.2 ∧
    ∃ co ∈ a.cores, x = (co.core_id, co.available_capacity, co.used_capacity) := by
  obtain ⟨co, hco, hxe⟩ := List.mem_map.mp hx
  obtain ⟨⟨i, hi⟩, hget⟩ := List.mem_iff_get.mp hco
  have hcid : co.core_id = i := by
    have h1 := congrArg (fun l => l[i]?) hids
    simp only [List.getElem?_map] at h1
    rw [List.getElem?_range hi] at h1
    rw [← List.get?_eq_getElem?, List.get?_eq_get hi, hget] at h1
    simpa using h1
  constructor
  · rw [← hxe]
    dsimp only
    rw [hcid, getUsed_eq_get a.cores i hi, hget]
  · exact ⟨co, hco, hxe.symm⟩

theorem allocate_spread_step (a : CPUAllocator) (nm : String) (dc : ℕ) (ds : ℚ)
    (hwf : WellFormedCores a.cores)
    (hmode : a.use_spread_mode = true)
    (hhs : 0 < a.host_score) (hds : 0 ≤ ds)
    (hn : (allocParams a.allow_overscaling a.host_score dc ds).1 ≤ emptyCount a.cores) :
    WellFormedCores (a.allocate nm dc ds none).1.cores ∧
    emptyCount a.cores ≤
      emptyCount (a.allocate nm dc ds none).1.cores +
        (allocParams a.allow_overscaling a.host_score dc ds).1 ∧
    (a.allocate nm dc ds none).2.is_oversubscribed = false ∧
    (a.allocate nm dc ds none).1.allocations =
      alistUpsert a.allocations nm (a.allocate nm dc ds none).2 ∧
    (a.allocate nm dc ds none).1.host_cores = a.host_cores ∧
    (a.allocate nm dc ds none).1.host_score = a.host_score ∧
    (a.allocate nm dc ds none).1.allow_overscaling = a.allow_overscaling ∧
    (a.allocate nm dc ds none).1.use_spread_mode = a.use_spread_mode := by
  have hps : (none : Option Bool).getD a.use_spread_mode = true := by
    simp [hmode]
  set n := (allocParams a.allow_overscaling a.host_score dc ds).1 with hn_def
  set c := (allocParams a.allow_overscaling a.host_score dc ds).2.1 with hc_def
  have hcb : 0 ≤ c ∧ c ≤ 1 := allocParams_limit_bounds _ _ _ _ hhs hds
  have hcores_eq : (a.allocate nm dc ds none).1.cores =
      (applyCoreAllocs a.cores nm
        (a.find_cores_for_device n c ((none : Option Bool).getD a.use_spread_mode)).1).1 :=
    rfl
  have hflag_eq : (a.allocate nm dc ds none).2.is_oversubscribed =
      (applyCoreAllocs a.cores nm
        (a.find_cores_for_device n c ((none : Option Bool).getD a.use_spread_mode)).1).2.2.2 :=
    rfl
  rw [hps] at hcores_eq hflag_eq
  obtain ⟨hnd, hmemf, hlenp⟩ := find_cores_picks_facts a n c true hwf.1
  obtain ⟨sorted, hperm, hpicks, hsorted⟩ := find_cores_core a n c true
  have hcnt : min n a.cores.length ≤ sorted.countP (fun x => decide (x.2.1 = 1)) := by
    rw [hperm.countP_eq, List.countP_map]
    have hcomp : ((fun x : ℕ × ℚ × ℚ => decide (x.2.1 = 1)) ∘
        (fun co : CoreAllocation =>
          (co.core_id, co.available_capacity, co.used_capacity))) =
        fun co : CoreAllocation => decide (co.available_capacity = 1) := rfl
    rw [hcomp]
    have hcong : a.cores.countP (fun co => decide (co.available_capacity = 1)) =
        emptyCount a.cores := by
      unfold emptyCount
      apply List.countP_congr
      intro co hco
      have hb := hwf.2 co hco
      simp only [decide_eq_true_eq]
      exact avail_eq_one_iff co hb.1 hb.2.2
    rw [hcong]
    exact le_trans (Nat.min_le_left _ _) hn
  have hub : ∀ x ∈ sorted, x.2.1 ≤ 1 := by
    intro x hx
    obtain ⟨-, co, hco, hxe⟩ :=
      core_list_mem_facts a hwf.1 (hperm.mem_iff.mp hx)
    have hb := hwf.2 co hco
    rw [hxe]
    exact avail_le_one co hb.1 hb.2.2
  have hfull : ∀ x ∈ sorted.take (min n a.cores.length), x.2.1 = 1 :=
    take_sorted_all_full _ sorted (hsorted rfl) hub hcnt
  have hzero : ∀ p ∈ (a.find_cores_for_device n c true).1, getUsed a.cores p.1 = 0 := by
    intro p hp
    rw [hpicks] at hp
    obtain ⟨x, hxtake, hxp⟩ := List.mem_map.mp hp
    have hx1 : x.2.1 = 1 := hfull x hxtake
    have hxs : x ∈ sorted := (List.take_sublist _ _).mem hxtake
    obtain ⟨hgu, co, hco, hxe⟩ :=
      core_list_mem_facts a hwf.1 (hperm.mem_iff.mp hxs)
    have hbco := hwf.2 co hco
    have hused0 : co.used_capacity = 0 := by
      rw [hxe] at hx1
      exact (avail_eq_one_iff co hbco.1 hbco.2.2).mp hx1
    rw [← hxp]
    dsimp only
    rw [hgu, hxe]
    exact hused0
  have hrange : ∀ p ∈ (a.find_cores_for_device n c true).1, p.1 < a.cores.length :=
    fun p hp => (hmemf p hp).1
  have hcapall : ∀ p ∈ (a.find_cores_for_device n c true).1, 0 ≤ p.2 ∧ p.2 ≤ 1 := by
    intro p hp
    rw [(hmemf p hp).2]
    exact hcb
  obtain ⟨hflag, hmap, hwfall, hcnt2⟩ :=
    applyCoreAllocs_spread nm (a.find_cores_for_device n c true).1 a.cores
      hnd hrange hzero hcapall hwf.2
  have hlenfin : (applyCoreAllocs a.cores nm
      (a.find_cores_for_device n c true).1).1.length = a.cores.length := by
    have := congrArg List.length hmap
    simpa using this
  refine ⟨⟨?_, ?_⟩, ?_, ?_, rfl, rfl, rfl, rfl, rfl⟩
  · rw [hcores_eq, hlenfin, hmap]
    exact hwf.1
  · rw [hcores_eq]
    exact hwfall
  · rw [hcores_eq]
    have := hcnt2
    omega
  · rw [hflag_eq]
    exact hflag

theorem set_mode_fields (a : CPUAllocator) (tc : ℕ) (te : ℚ) :
    (a.set_mode tc te).host_cores = a.host_cores ∧
    (a.set_mode tc te).host_score = a.host_score ∧
    (a.set_mode tc te).allow_overscaling = a.allow_overscaling ∧
    (a.set_mode tc te).cores = a.cores ∧
    (a.set_mode tc te).allocations = a.allocations := by
  unfold CPUAllocator.set_mode
  split_ifs <;> exact ⟨rfl, rfl, rfl, rfl, rfl⟩

theorem set_mode_spread_imp (a : CPUAllocator) (tc : ℕ) (te : ℚ)
    (h : (a.set_mode tc te).use_spread_mode = true) : tc ≤ a.host_cores := by
  unfold CPUAllocator.set_mode at h
  by_cases h1 : tc > a.host_cores
  · rw [if_pos h1] at h
    simp at h
  · omega

theorem initCores_facts (k : ℕ) :
    WellFormedCores (initCores k) ∧ emptyCount (initCores k) = k := by
  constructor
  · constructor
    · unfold initCores
      rw [List.map_map, List.length_map, List.length_range]
      have : ((fun co : CoreAllocation => co.core_id) ∘
          fun i => ({ core_id := i } : CoreAllocation)) = id := rfl
      rw [this, List.map_id]
    · intro co hco
      obtain ⟨i, -, hi⟩ := List.mem_map.mp hco
      rw [← hi]
      norm_num
  · unfold emptyCount initCores
    rw [List.countP_map]
    have : ((fun co : CoreAllocation => decide (co.used_capacity = 0)) ∘
        fun i => ({ core_id := i } : CoreAllocation)) = fun _ => true := rfl
    rw [this]
    simp

theorem planTotals_fst (hs : ℚ) (allow : Bool) (devs : List (String × Device)) :
    (planTotals hs allow devs).1 = needSum allow hs devs := by
  induction devs with
  | nil => rfl
  | cons d rest ih =>
    obtain ⟨nm, dev⟩ := d
    simp only [planTotals, needSum]
    cases allow with
    | false =>
      simp only [Bool.false_eq_true, false_and, if_false, allocParams]
      simp [ih]
      omega
    | true =>
      by_cases h : (dev.single_core_score.getD hs) / hs > 1
      · simp only [allocParams, true_and, if_pos h, if_true]
        simp [ih, h]
        omega
      · simp only [allocParams, true_and, if_neg h, if_true]
        simp [ih, h]
        omega

theorem generateContainerConfigs_destruct (cc : ℕ) (dev : Device) (hs : ℚ)
    (al : CPUAllocator) (idx : ℕ) (hcc : 1 ≤ cc) :
    ∃ cfg, generateContainerConfigs cc dev hs al idx =
      .ok ((al.allocate ("container_" ++ toString idx) dev.cores
        (dev.single_core_score.getD hs) none).1, cfg) := by
  unfold generateContainerConfigs
  rw [if_neg (by omega)]
  exact ⟨_, rfl⟩

theorem planLoop_spread (cc : ℕ) (hs : ℚ) (hcc : 1 ≤ cc) (hpos : 0 < hs) :
    ∀ (devs : List (String × Device)) (al : CPUAllocator) (idx : ℕ)
      (cfgs : List (String × ContainerConfig)),
    al.host_score = hs →
    al.use_spread_mode = true →
    WellFormedCores al.cores →
    (∀ d ∈ devs, 0 ≤ d.2.single_core_score.getD hs) →
    needSum al.allow_overscaling hs devs ≤ emptyCount al.cores →
    (∀ r ∈ al.allocations, r.2.is_oversubscribed = false) →
    ∃ res, planLoop cc hs al devs idx cfgs = .ok res ∧
      (∀ co ∈ res.1.cores, 0 ≤ co.used_capacity ∧ co.used_capacity ≤ 1 ∧
        co.total_capacity = 1) ∧
      (∀ r ∈ res.1.allocations, r.2.is_oversubscribed = false) := by
  intro devs
  induction devs with
  | nil =>
    intro al idx cfgs _ _ hwf _ _ hrec
    exact ⟨(al, cfgs), by simp [planLoop], hwf.2, hrec⟩
  | cons d rest ih =>
    intro al idx cfgs hhs hmode hwf hscore hneed hrec
    obtain ⟨nm, dev⟩ := d
    have hds : 0 ≤ dev.single_core_score.getD hs := hscore _ (List.mem_cons_self _ _)
    have hposal : 0 < al.host_score := by rw [hhs]; exact hpos
    have hds' : 0 ≤ dev.single_core_score.getD al.host_score := by rw [hhs]; exact hds
    have hneedhead :
        (allocParams al.allow_overscaling al.host_score dev.cores
          (dev.single_core_score.getD al.host_score)).1 +
          needSum al.allow_overscaling hs rest ≤ emptyCount al.cores := by
      rw [hhs]
      simpa [needSum] using hneed
    have hstep := allocate_spread_step al ("container_" ++ toString idx) dev.cores
      (dev.single_core_score.getD al.host_score) hwf hmode hposal hds'
      (by omega)
    obtain ⟨hwf', hcnt', hflag', hallocs', hhc', hhs', hao', hus'⟩ := hstep
    obtain ⟨cfg, hgen⟩ := generateContainerConfigs_destruct cc dev hs al idx hcc
    have hhsarg : dev.single_core_score.getD hs =
        dev.single_core_score.getD al.host_score := by rw [hhs]
    rw [hhsarg] at hgen
    have halnew := ih ((al.allocate ("container_" ++ toString idx) dev.cores
        (dev.single_core_score.getD al.host_score) none).1) (idx + 1)
      (alistUpsert cfgs nm cfg)
      (by rw [hhs', hhs]) (by rw [hus', hmode]) hwf'
      (fun d hd => hscore d (List.mem_cons_of_mem _ hd))
      (by rw [hao']; omega)
      (by
        intro r hr
        rw [hallocs'] at hr
        rcases mem_alistUpsert hr with h | h
        · exact hrec r h
        · rw [h]
          exact hflag')
    obtain ⟨res, hres, hreswf, hresrec⟩ := halnew
    refine ⟨res, ?_, hreswf, hresrec⟩
    simp only [planLoop]
    rw [hgen]
    exact hres

theorem mergeSort_pair {α : Type} (le : α → α → Bool) (a b : α) :
    List.mergeSort [a, b] le = if le a b then [a, b] else [b, a] := by
  rw [List.mergeSort]
  simp [List.splitInTwo, List.mergeSort, List.merge]

/-- C1 as stated is false on the code: for `sharedOversubManager` the total
requested effective capacity (Σ deviceCores · capped ratio) is 2, which is
at most the 2 host cores, yet after `plan_allocations` core 0 carries used
capacity 3/2 > 1.0 and the stored record for "container_1" has the
oversubscription flag set. -/
theorem C1_capacity_conservation_counterexample :
    (planTotals sharedOversubManager.host_score
      sharedOversubManager.allow_overscaling sharedOversubManager.containers).2 = 2 ∧
    (2 : ℚ) ≤ (sharedOversubManager.host_cores : ℚ) ∧
    (sharedOversubManager.plan_allocations.toOption.map
      (fun m' => m'.allocator.cores.map (·.used_capacity))) = some [3/2, 1/2] ∧
    ¬ ((3 : ℚ)/2 ≤ 1) ∧
    (sharedOversubManager.plan_allocations.toOption.map
      (fun m' => (m'.allocator.allocations.lookup "container_1").map
        (·.is_oversubscribed))) = some (some true) := by
  norm_num [sharedOversubManager, mkContainerResourceManager, mkCPUAllocator,
    initCores, ContainerResourceManager.plan_allocations, planTotals, planLoop,
    generateContainerConfigs, CPUAllocator.allocate, allocParams,
    CPUAllocator.find_cores_for_device, applyCoreAllocs, CPUAllocator.reset,
    CPUAllocator.set_mode, CoreAllocation.available_capacity, getUsed,
    spreadLe, sharedLe, lexKeyLe, sharedSortKey, alistUpsert, mergeSort_pair,
    List.mergeSort_singleton, (show List.range 2 = [0, 1] from rfl),
    (show ("container_" ++ toString (0 : ℕ) : String) = "container_0" from rfl),
    (show ("container_" ++ toString (1 : ℕ) : String) = "container_1" from rfl),
    (show ("container_1" == "container_0") = false from by simp),
    Function.comp, Except.toOption, List.lookup]

/-- C1 (amended): when the planning pass selects Spread mode (which by
`set_mode` requires total cores needed ≤ host cores), the host score is
positive, registered scores are nonnegative, and the manager's cached
parameters agree with its allocator's, the pass completes and afterwards
every core's used capacity is at most its total capacity 1.0 and no stored
allocation record has the oversubscription flag set. -/
theorem C1_spread_capacity_conservation (m : ContainerResourceManager)
    (hals : m.allocator.host_score = m.host_score)
    (halo : m.allocator.allow_overscaling = m.allow_overscaling)
    (hpos : 0 < m.host_score)
    (hsc : ∀ d ∈ m.containers, 0 ≤ d.2.single_core_score.getD m.host_score)
    (hcc : 1 ≤ m.client_count)
    (hmode : ((m.allocator.reset).set_mode
        (planTotals m.host_score m.allow_overscaling m.containers).1
        (planTotals m.host_score m.allow_overscaling m.containers).2).use_spread_mode
        = true) :
    ∃ m', m.plan_allocations = .ok m' ∧
      (∀ co ∈ m'.allocator.cores,
        co.used_capacity ≤ co.total_capacity ∧ co.total_capacity = 1) ∧
      (∀ r ∈ m'.allocator.allocations, r.2.is_oversubscribed = false) := by
  obtain ⟨res, hres, hbounds, hrec⟩ :=
    planLoop_spread m.client_count m.host_score hcc hpos m.containers
      ((m.allocator.reset).set_mode
        (planTotals m.host_score m.allow_overscaling m.containers).1
        (planTotals m.host_score m.allow_overscaling m.containers).2)
      0 m.configs
      (by rw [(set_mode_fields _ _ _).2.1]; exact hals)
      hmode
      (by rw [(set_mode_fields _ _ _).2.2.2.1]; exact (initCores_facts _).1)
      hsc
      (by
        rw [(set_mode_fields _ _ _).2.2.1]
        rw [show (m.allocator.reset).allow_overscaling = m.allow_overscaling from halo]
        rw [← planTotals_fst]
        rw [(set_mode_fields _ _ _).2.2.2.1]
        rw [show emptyCount (m.allocator.reset).cores = m.allocator.host_cores from
          (initCores_facts _).2]
        exact set_mode_spread_imp (m.allocator.reset) _ _ hmode)
      (by
        rw [(set_mode_fields _ _ _).2.2.2.2]
        intro r hr
        simp [CPUAllocator.reset] at hr)
  refine ⟨{ m with allocator := res.1, configs := res.2, planned := true }, ?_, ?_, ?_⟩
  · simp only [ContainerResourceManager.plan_allocations, hres]
  · intro co hco
    obtain ⟨-, h1, h2⟩ := hbounds co hco
    exact ⟨by rw [h2]; exact h1, h2⟩
  · exact hrec

/-- Witness instantiating the amended C1 at `spreadScenarioManager`. -/
theorem C1_spread_capacity_conservation_witness :
    ((0 : ℚ) < spreadScenarioManager.host_score ∧
      1 ≤ spreadScenarioManager.client_count ∧
      ((spreadScenarioManager.allocator.reset).set_mode
        (planTotals spreadScenarioManager.host_score
          spreadScenarioManager.allow_overscaling
          spreadScenarioManager.containers).1
        (planTotals spreadScenarioManager.host_score
          spreadScenarioManager.allow_overscaling
          spreadScenarioManager.containers).2).use_spread_mode = true) ∧
    (∃ m', spreadScenarioManager.plan_allocations = .ok m' ∧
      (∀ co ∈ m'.allocator.cores,
        co.used_capacity ≤ co.total_capacity ∧ co.total_capacity = 1) ∧
      (∀ r ∈ m'.allocator.allocations, r.2.is_oversubscribed = false)) :=
  ⟨⟨by norm_num [spreadScenarioManager, mkContainerResourceManager],
    by norm_num [spreadScenarioManager, mkContainerResourceManager],
    by norm_num [spreadScenarioManager, mkContainerResourceManager, mkCPUAllocator,
      CPUAllocator.reset, CPUAllocator.set_mode, planTotals, initCores]⟩,
    C1_spread_capacity_conservation spreadScenarioManager rfl rfl
      (by norm_num [spreadScenarioManager, mkContainerResourceManager])
      (by
        intro d hd
        simp only [spreadScenarioManager, mkContainerResourceManager,
          List.mem_singleton] at hd
        subst hd
        norm_num [spreadScenarioManager, mkContainerResourceManager])
      (by norm_num [spreadScenarioManager, mkContainerResourceManager])
      (by norm_num [spreadScenarioManager, mkContainerResourceManager, mkCPUAllocator,
        CPUAllocator.reset, CPUAllocator.set_mode, planTotals, initCores])⟩

theorem applyCoreAllocs_sum (nm : String) :
    ∀ (picks : List (ℕ × ℚ)) (cores : List CoreAllocation),
    (∀ p ∈ picks, p.1 < cores.length) →
    sumUsed (applyCoreAllocs cores nm picks).1 =
      sumUsed cores + (picks.map Prod.snd).sum := by
  intro picks
  induction picks with
  | nil =>
    intro cores _
    simp [applyCoreAllocs]
  | cons p rest ih =>
    intro cores hrange
    obtain ⟨id, cap⟩ := p
    have hid : id < cores.length := hrange _ (List.mem_cons_self _ _)
    simp only [applyCoreAllocs]
    rw [ih _ (fun q hq => by
      rw [List.length_modify]
      exact hrange _ (List.mem_cons_of_mem _ hq))]
    rw [sumUsed_modify_add cap nm id cores hid]
    simp only [List.map_cons, List.sum_cons]
    ring

/-- C2 as stated is false on the code: `reallocState` already holds a record
for "a" with core 0 fully used; a second `allocate("a", 1, 1)` is not
rejected — it completes, doubles core 0's used capacity to 2, and stores an
oversubscribed record. -/
theorem C2_reallocate_counterexample :
    (reallocState.allocations.lookup "a").isSome = true ∧
    reallocState.cores.map (·.used_capacity) = [1] ∧
    (reallocState.allocate "a" 1 1 none).1.cores.map (·.used_capacity) = [2] ∧
    ((reallocState.allocate "a" 1 1 none).1.allocations.lookup "a").map
      (·.is_oversubscribed) = some true := by
  norm_num [reallocState, mkCPUAllocator, initCores, CPUAllocator.allocate,
    allocParams, CPUAllocator.find_cores_for_device, applyCoreAllocs,
    CoreAllocation.available_capacity, getUsed, spreadLe, alistUpsert,
    List.mergeSort_singleton, (show List.range 1 = [0] from rfl),
    Function.comp, List.lookup]

/-- C2 (amended): calling `allocate` again with an already-stored name is not
rejected: the call completes, overwrites the stored record under that name,
and counts the newly selected per-core capacities on the cores again — the
total used capacity grows by `min(coresToAssign, hostCores) · perCoreLimit`
instead of staying unchanged. -/
theorem C2_reallocate_double_counts (a : CPUAllocator) (nm : String) (dc : ℕ)
    (ds : ℚ) (ps : Option Bool)
    (hids : a.cores.map (·.core_id) = List.range a.cores.length) :
    sumUsed (a.allocate nm dc ds ps).1.cores =
      sumUsed a.cores +
        ((min (allocParams a.allow_overscaling a.host_score dc ds).1
          a.cores.length : ℕ) : ℚ) *
          (allocParams a.allow_overscaling a.host_score dc ds).2.1 ∧
    (a.allocate nm dc ds ps).1.allocations.lookup nm =
      some (a.allocate nm dc ds ps).2 := by
  constructor
  · have hcores_eq : (a.allocate nm dc ds ps).1.cores =
        (applyCoreAllocs a.cores nm
          (a.find_cores_for_device
            (allocParams a.allow_overscaling a.host_score dc ds).1
            (allocParams a.allow_overscaling a.host_score dc ds).2.1
            (ps.getD a.use_spread_mode)).1).1 := rfl
    obtain ⟨hnd, hmem, hlen⟩ := find_cores_picks_facts a
      (allocParams a.allow_overscaling a.host_score dc ds).1
      (allocParams a.allow_overscaling a.host_score dc ds).2.1
      (ps.getD a.use_spread_mode) hids
    rw [hcores_eq, applyCoreAllocs_sum nm _ a.cores (fun p hp => (hmem p hp).1)]
    congr 1
    have hrep : ((a.find_cores_for_device
        (allocParams a.allow_overscaling a.host_score dc ds).1
        (allocParams a.allow_overscaling a.host_score dc ds).2.1
        (ps.getD a.use_spread_mode)).1.map Prod.snd) =
        List.replicate
          (min (allocParams a.allow_overscaling a.host_score dc ds).1
            a.cores.length)
          (allocParams a.allow_overscaling a.host_score dc ds).2.1 := by
      apply List.eq_replicate_iff.mpr
      refine ⟨by rw [List.length_map]; exact hlen, ?_⟩
      intro b hb
      obtain ⟨p, hp, hpb⟩ := List.mem_map.mp hb
      rw [← hpb]
      exact (hmem p hp).2
    rw [hrep, List.sum_replicate, nsmul_eq_mul]
  · rw [show (a.allocate nm dc ds ps).1.allocations =
        alistUpsert a.allocations nm (a.allocate nm dc ds ps).2 from rfl,
      lookup_alistUpsert]

/-- Witness instantiating the amended C2 at `reallocState` (second call for
the same name "a"). -/
theorem C2_reallocate_double_counts_witness :
    reallocState.cores.map (·.core_id) = List.range reallocState.cores.length ∧
    (sumUsed (reallocState.allocate "a" 1 1 none).1.cores =
      sumUsed reallocState.cores +
        ((min (allocParams reallocState.allow_overscaling
          reallocState.host_score 1 1).1 reallocState.cores.length : ℕ) : ℚ) *
          (allocParams reallocState.allow_overscaling
            reallocState.host_score 1 1).2.1 ∧
    (reallocState.allocate "a" 1 1 none).1.allocations.lookup "a" =
      some (reallocState.allocate "a" 1 1 none).2) :=
  ⟨by
    norm_num [reallocState, mkCPUAllocator, initCores, CPUAllocator.allocate,
      allocParams, CPUAllocator.find_cores_for_device, applyCoreAllocs,
      CoreAllocation.available_capacity, getUsed, spreadLe,
      List.mergeSort_singleton, (show List.range 1 = [0] from rfl),
      Function.comp],
   C2_reallocate_double_counts reallocState "a" 1 1 none (by
    norm_num [reallocState, mkCPUAllocator, initCores, CPUAllocator.allocate,
      allocParams, CPUAllocator.find_cores_for_device, applyCoreAllocs,
      CoreAllocation.available_capacity, getUsed, spreadLe,
      List.mergeSort_singleton, (show List.range 1 = [0] from rfl),
      Function.comp])⟩

/-- C3 as stated is false for `get_allocation_summary`: on a freshly built
manager (planning never run) it returns the allocator's summary normally
instead of failing with `InvalidState` — the source has no `_planned`
check there. -/
theorem C3_summary_before_planning_counterexample :
    freshManager.planned = false ∧
    freshManager.get_allocation_summary =
      .ok freshManager.allocator.get_allocation_summary := ⟨rfl, rfl⟩

/-- C3 (amended): before planning (freshly built or reset manager),
`get_container_config` and `get_all_configs` fail with the `InvalidState`
`RuntimeError`, but `get_allocation_summary` does not: it unconditionally
returns the allocator's summary. -/
theorem C3_accessor_guards (m : ContainerResourceManager) (name : String)
    (h : m.planned = false) :
    m.get_container_config name = .error .runtimeError ∧
    m.get_all_configs = .error .runtimeError ∧
    m.get_allocation_summary = .ok m.allocator.get_allocation_summary ∧
    (m.reset).planned = false ∧
    (∀ (hs : ℚ) (cc hc : ℕ) (st dv : ℚ) (ao : Bool),
      (mkContainerResourceManager hs cc hc st dv ao).planned = false) := by
  refine ⟨?_, ?_, rfl, rfl, fun _ _ _ _ _ _ => rfl⟩
  · simp [ContainerResourceManager.get_container_config, h]
  · simp [ContainerResourceManager.get_all_configs, h]

/-- Witness instantiating the amended C3 at `freshManager`. -/
theorem C3_accessor_guards_witness :
    freshManager.planned = false ∧
    (freshManager.get_container_config "client_0" = .error .runtimeError ∧
     freshManager.get_all_configs = .error .runtimeError ∧
     freshManager.get_allocation_summary =
       .ok freshManager.allocator.get_allocation_summary ∧
     (freshManager.reset).planned = false ∧
     (∀ (hs : ℚ) (cc hc : ℕ) (st dv : ℚ) (ao : Bool),
       (mkContainerResourceManager hs cc hc st dv ao).planned = false)) :=
  ⟨rfl, C3_accessor_guards freshManager "client_0" rfl⟩

/-- C4: `set_mode` selects Shared whenever `totalCoresNeeded > hostCores`;
otherwise Spread exactly when `totalEffectiveCapacity <
hostCores·spreadThreshold`, and Shared otherwise.  With 8 host cores and
threshold 1/2, `(3, 2.5)` yields Spread (2.5 < 4.0); `(20, _)` always
yields Shared. -/
theorem C4_set_mode_selection :
    (∀ (a : CPUAllocator) (tc : ℕ) (te : ℚ),
      ((a.set_mode tc te).use_spread_mode = true ↔
        tc ≤ a.host_cores ∧ te < (a.host_cores : ℚ) * a.spread_threshold)) ∧
    ((mkCPUAllocator 8 1079 (1/2)).set_mode 3 (5/2)).use_spread_mode = true ∧
    (∀ (st te : ℚ),
      ((mkCPUAllocator 8 1079 st).set_mode 20 te).use_spread_mode = false) := by
  refine ⟨?_, ?_, ?_⟩
  · intro a tc te
    unfold CPUAllocator.set_mode
    by_cases h1 : tc > a.host_cores
    · rw [if_pos h1]
      simp only [Bool.false_eq_true, false_iff, not_and]
      intro h2
      omega
    · rw [if_neg h1]
      by_cases h2 : te < (a.host_cores : ℚ) * a.spread_threshold
      · rw [if_pos h2]
        simp only [true_iff]
        exact ⟨by omega, h2⟩
      · rw [if_neg h2]
        simp only [Bool.false_eq_true, false_iff, not_and]
        intro _
        exact h2
  · norm_num [mkCPUAllocator, CPUAllocator.set_mode]
  · intro st te
    norm_num [mkCPUAllocator, CPUAllocator.set_mode]

/-- C5: with overscaling on and raw ratio above 1 the triple is
(ceil(deviceCores·rawRatio), 1, deviceCores·rawRatio); in every other case
it is (deviceCores, min 1 rawRatio, deviceCores·min 1 rawRatio), where the
per-core limit equals effectiveCapacity / deviceCores; a 4-core device at
twice the host score with overscaling yields (8, 1, 8), and the returned
record carries exactly the computed per-core limit and effective
capacity. -/
theorem C5_allocation_parameters (allow : Bool) (hs ds : ℚ) (dc : ℕ) :
    ((allow = true ∧ ds / hs > 1) →
      allocParams allow hs dc ds =
        ((⌈(dc : ℚ) * (ds / hs)⌉).toNat, 1, (dc : ℚ) * (ds / hs))) ∧
    (¬(allow = true ∧ ds / hs > 1) →
      allocParams allow hs dc ds =
        (dc, min 1 (ds / hs), (dc : ℚ) * min 1 (ds / hs)) ∧
      (0 < dc → ((dc : ℚ) * min 1 (ds / hs)) / (dc : ℚ) = min 1 (ds / hs))) ∧
    allocParams true 1 4 2 = (8, 1, 8) ∧
    (∀ (a : CPUAllocator) (nm : String) (dc' : ℕ) (ds' : ℚ) (ps : Option Bool),
      (a.allocate nm dc' ds' ps).2.cpu_limit_per_core =
        (allocParams a.allow_overscaling a.host_score dc' ds').2.1 ∧
      (a.allocate nm dc' ds' ps).2.effective_capacity =
        (allocParams a.allow_overscaling a.host_score dc' ds').2.2) := by
  have hdiv : ∀ (x : ℚ), 0 < dc → ((dc : ℚ) * x) / (dc : ℚ) = x := by
    intro x hdc
    rw [mul_comm, mul_div_assoc, div_self (by positivity), mul_one]
  refine ⟨?_, ?_, ?_, fun _ _ _ _ _ => ⟨rfl, rfl⟩⟩
  · rintro ⟨ha, hr⟩
    subst ha
    simp only [allocParams, if_true, if_pos hr]
  · intro hcon
    cases ha : allow with
    | false =>
      subst ha
      refine ⟨by simp only [allocParams, Bool.false_eq_true, if_false], ?_⟩
      exact fun hdc => hdiv _ hdc
    | true =>
      subst ha
      have hr : ¬(ds / hs > 1) := fun hgt => hcon ⟨rfl, hgt⟩
      have hmin : min 1 (ds / hs) = ds / hs := min_eq_right (le_of_not_lt hr)
      refine ⟨by simp only [allocParams, if_true, if_neg hr, hmin], ?_⟩
      exact fun hdc => hdiv _ hdc
  · norm_num [allocParams, Prod.ext_iff]
    rfl

/-- Witness instantiating C5 on both branches: a 4-core device at double
speed with overscaling, and a 3-core half-speed device without. -/
theorem C5_allocation_parameters_witness :
    ((true = true ∧ (2 : ℚ) / 1 > 1) ∧
      allocParams true 1 4 2 =
        ((⌈(4 : ℚ) * ((2 : ℚ) / 1)⌉).toNat, 1, (4 : ℚ) * ((2 : ℚ) / 1))) ∧
    (¬(false = true ∧ (1 : ℚ) / 2 > 1) ∧ (0 : ℕ) < 3 ∧
      allocParams false 2 3 1 =
        (3, min 1 ((1 : ℚ) / 2), (3 : ℚ) * min 1 ((1 : ℚ) / 2)) ∧
      ((3 : ℚ) * min 1 ((1 : ℚ) / 2)) / (3 : ℚ) = min 1 ((1 : ℚ) / 2)) :=
  ⟨⟨⟨rfl, by norm_num⟩,
    (C5_allocation_parameters true 1 2 4).1 ⟨rfl, by norm_num⟩⟩,
   ⟨by simp, by norm_num,
    ((C5_allocation_parameters false 2 1 3).2.1 (by simp)).1,
    ((C5_allocation_parameters false 2 1 3).2.1 (by simp)).2 (by norm_num)⟩⟩

/-- C6 as stated is false on the code: a field carrying `typical = 10` and
the degenerate range `[5, 5]` gets stddev `0.2·|10| = 2` (the source's
`r[1] > r[0]` fallback), not `(5−5)/4 = 0`. -/
theorem C6_degenerate_range_counterexample :
    extractParamStats degenerateRangeParams = ([10], [2], ["x"]) ∧
    ((5 : ℚ) - 5) / 4 ≠ 2 := by
  constructor
  · norm_num [extractParamStats, degenerateRangeParams]
  · norm_num

/-- C6 (amended): the extractor agrees everywhere with the spec-side
reformulation: mean = typical; stddev = (max−min)/4 when a range with
max > min is present and 0.2·|typical| when the range is absent or
degenerate; fields without typical are omitted from means, stddevs and
keys. -/
theorem C6_extract_param_stats (pd : ParamDict) :
    extractParamStats pd = extractParamStatsSpec pd := by
  induction pd with
  | nil => rfl
  | cons kv rest ih =>
    obtain ⟨k, v⟩ := kv
    cases htyp : v.typical with
    | none =>
      simp only [extractParamStats, extractParamStatsSpec, htyp,
        List.filterMap_cons, Option.map_none] at ih ⊢
      exact ih
    | some t =>
      cases hrng : v.range with
      | none =>
        simp only [extractParamStats, extractParamStatsSpec, htyp, hrng,
          List.filterMap_cons, Option.map_some] at ih ⊢
        simp [ih, extractParamStatsSpec]
      | some r =>
        simp only [extractParamStats, extractParamStatsSpec, htyp, hrng,
          List.filterMap_cons, Option.map_some] at ih ⊢
        simp [ih, extractParamStatsSpec]

/-- C7 (the spec's intent, contradicted by the code): at node index 0 both
list resolutions return the *last* list element via Python's negative
indexing `list[-1]`, not the "no profile" sentinel; `device_profile`'s
sentinel branch is reachable only for an empty list.  In-range indices
resolve to `list[idx-1]` and past-the-end indices clamp to the last
element, as claimed. -/
theorem C7_index_zero_resolves_last :
    networkResolveProfile ["a", "b"] 0 = some "b" ∧
    deviceResolveName ["a", "b"] 0 = .profile "b" ∧
    deviceResolveName [] 0 = .defaultConfig ∧
    networkResolveProfile ["a", "b"] 1 = some "a" ∧
    networkResolveProfile ["a", "b"] 2 = some "b" ∧
    networkResolveProfile ["a", "b"] 5 = some "b" ∧
    deviceResolveName ["a", "b"] 5 = .profile "b" := by decide

/-- C8: the link sampler and the device perturbation depend only on their
arguments: under any fixed NumPy model the result is identical across
arbitrary global generator states, the global state passes through
untouched, and an immediately repeated call returns the identical
sample. -/
theorem C8_sampler_determinism (M : NumpyModel) (data : NetCatalog)
    (ddata : List (String × List (String × ℚ))) (profile device_name : String)
    (idx : ℕ) (conn_type : Option String) (corr : Option ℚ)
    (variation dcorr : ℚ) (lock_keys : List String) (w1 w2 : ℕ) :
    (sampleProfileRun M data profile idx conn_type corr w1).1 =
      (sampleProfileRun M data profile idx conn_type corr w2).1 ∧
    (sampleProfileRun M data profile idx conn_type corr w1).2 = w1 ∧
    (sampleProfileRun M data profile idx conn_type corr
      (sampleProfileRun M data profile idx conn_type corr w1).2).1 =
      (sampleProfileRun M data profile idx conn_type corr w1).1 ∧
    (perturbDeviceRun M ddata device_name idx variation dcorr lock_keys w1).1 =
      (perturbDeviceRun M ddata device_name idx variation dcorr lock_keys w2).1 ∧
    (perturbDeviceRun M ddata device_name idx variation dcorr lock_keys w1).2 =
      w1 :=
  ⟨rfl, rfl, rfl, rfl, rfl⟩

theorem lookup_filter_pred {α : Type} (l : List (String × α)) (p : String → Bool)
    (k : String) (hk : p k = true) :
    (l.filter (fun kv => p kv.1)).lookup k = l.lookup k := by
  induction l with
  | nil => simp
  | cons h t ih =>
    obtain ⟨k', v'⟩ := h
    by_cases hk' : p k' = true
    · by_cases hbeq : k' = k
      · subst hbeq
        simp [List.filter_cons, hk', List.lookup_cons]
      · have hne : (k == k') = false :=
          beq_eq_false_iff_ne.mpr (fun he => hbeq he.symm)
        simp [List.filter_cons, hk', List.lookup_cons, hne, ih]
    · have hne : (k == k') = false := by
        refine beq_eq_false_iff_ne.mpr ?_
        intro he
        exact hk' (he ▸ hk)
      simp [List.filter_cons, hk', List.lookup_cons, hne, ih]

theorem lookup_eq_none_of_keys {α : Type} (l : List (String × α)) (k : String)
    (h : ∀ p ∈ l, p.1 ≠ k) : l.lookup k = none := by
  induction l with
  | nil => rfl
  | cons hd t ih =>
    obtain ⟨k', v'⟩ := hd
    have hne : (k == k') = false :=
      beq_eq_false_iff_ne.mpr (fun he => h (k', v') (List.mem_cons_self _ _) he.symm)
    simp only [List.lookup_cons, hne]
    exact ih (fun p hp => h p (List.mem_cons_of_mem _ hp))

theorem lookup_append_left_none {α : Type} (l₁ l₂ : List (String × α))
    (k : String) (h : l₁.lookup k = none) :
    (l₁ ++ l₂).lookup k = l₂.lookup k := by
  rw [List.lookup_append, h, Option.none_or]

/-- C9: every field listed in `lockedKeys` survives `perturb_device`
verbatim: whatever the model draws, the returned mapping carries the
archetype's exact value at each locked key (only non-locked fields are
resampled). -/
theorem C9_locked_fields_unchanged (M : NumpyModel)
    (data : List (String × List (String × ℚ))) (device_name : String)
    (device : List (String × ℚ)) (idx : ℕ) (variation corr : ℚ)
    (lock_keys : List String) (k : String) (v : ℚ)
    (hdev : data.lookup device_name = some device)
    (hlock : lock_keys.contains k = true)
    (hk : device.lookup k = some v) :
    ∃ res, perturbDevice M data device_name idx variation corr lock_keys =
      .ok res ∧ res.lookup k = some v := by
  simp only [perturbDevice, hdev]
  by_cases hz : (device.filter (fun kv => !(lock_keys.contains kv.1))).length = 0
  · rw [if_pos hz]
    refine ⟨_, rfl, ?_⟩
    rw [show (fun kv : String × ℚ => lock_keys.contains kv.1) =
      (fun kv : String × ℚ => (fun s => lock_keys.contains s) kv.1) from rfl]
    rw [lookup_filter_pred device _ k hlock]
    exact hk
  · rw [if_neg hz]
    refine ⟨_, rfl, ?_⟩
    rw [lookup_append_left_none]
    · rw [show (fun kv : String × ℚ => lock_keys.contains kv.1) =
        (fun kv : String × ℚ => (fun s => lock_keys.contains s) kv.1) from rfl]
      rw [lookup_filter_pred device _ k hlock]
      exact hk
    · apply lookup_eq_none_of_keys
      intro p hp
      obtain ⟨kv, hkv, hkvp⟩ := List.mem_map.mp hp
      have hmem := (List.of_mem_zip hkv).1
      have hfil := (List.mem_filter.mp hmem).2
      intro hpk
      rw [← hkvp] at hpk
      dsimp only at hpk
      rw [hpk, hlock] at hfil
      simp at hfil

/-- Witness instantiating C9: a device with locked "cores" under a model
that shifts every drawn mean by 10. -/
theorem C9_locked_fields_unchanged_witness :
    (([("rpi4", [("cores", (4 : ℚ)), ("ram_gib", (4 : ℚ))])].lookup "rpi4") =
      some [("cores", (4 : ℚ)), ("ram_gib", (4 : ℚ))]) ∧
    (["cores"].contains "cores" = true) ∧
    ([("cores", (4 : ℚ)), ("ram_gib", (4 : ℚ))].lookup "cores" = some 4) ∧
    (∃ res, perturbDevice shiftNumpyModel
      [("rpi4", [("cores", (4 : ℚ)), ("ram_gib", (4 : ℚ))])] "rpi4" 7 (1/5)
      (1/2) ["cores"] = .ok res ∧ res.lookup "cores" = some 4) :=
  ⟨rfl, rfl, rfl,
    C9_locked_fields_unchanged shiftNumpyModel _ "rpi4" _ 7 (1/5) (1/2)
      ["cores"] "cores" 4 rfl rfl rfl⟩

/-- C10: a connection type supplied explicitly that is not a key under the
(top-level) profile makes the sampler fail with the `ValueError` of line
600 — no sample is returned and, the result being independent of the NumPy
model, no draw takes place. -/
theorem C10_unknown_connection_type_fails (M : NumpyModel) (data : NetCatalog)
    (profile : String) (p_data : NetProfile) (idx : ℕ) (ct : String)
    (corr : Option ℚ)
    (hp : data.lookup profile = some p_data)
    (hct : p_data.lookup ct = none) :
    sampleProfile M data profile idx (some ct) corr = .error .valueError := by
  simp [sampleProfile, sampleProfileResolved, hp, hct]

/-- Witness instantiating C10 at a one-profile catalog and the absent
connection type "5g". -/
theorem C10_unknown_connection_type_fails_witness :
    (([("home", [("wifi", ([] : ParamDict))])] : NetCatalog).lookup "home" =
      some [("wifi", [])]) ∧
    (([("wifi", ([] : ParamDict))] : NetProfile).lookup "5g" = none) ∧
    sampleProfile meanNumpyModel [("home", [("wifi", [])])] "home" 3
      (some "5g") none = .error .valueError :=
  ⟨rfl, rfl,
    C10_unknown_connection_type_fails meanNumpyModel _ "home" _ 3 "5g" none
      rfl rfl⟩
